import Mathlib

/-!
Verification of the account/metadata instruction-building module
(`packages/common/src/actions/account.ts`) of the oyster repository.

Modelling conventions:

* A byte buffer is a `List Nat`; every entry stands for one byte.
* A JavaScript string is represented by the list of its UTF-8 bytes
  (the codec only ever sees strings through their UTF-8 byte sequence,
  and all declared length bounds are byte counts).
* Public keys are opaque identifiers, modelled as `Nat`.  The source
  compares keys via `toBase58()`, which is injective on keys, so key
  equality models those comparisons.  Well-known external keys
  (system program, rent sysvar, token program, wrapped-SOL mint) are
  distinguished constants.
* Fallible operations return `Option`; `none` models the codec's
  `MalformedInput` (BorshError) failure.
* The caller-supplied mutable lists (`instructions`,
  `cleanupInstructions`, `signers`) become a `BuildState` record that
  is passed and returned explicitly; `push` becomes `++ [x]`.
* `new Account()` (external key-pair generation) is modelled by passing
  the freshly generated public key in as an explicit argument, and
  `PublicKey.findProgramAddress` (external deterministic derivation) by
  a function argument `derive` from seed lists to keys.

The borsh serializer itself (`serialize` from the npm `borsh` package
and `deserializeBorsh` from `packages/common/src/utils/borsh`) is not
part of the provided source tree; its byte-level behaviour is modelled
from the spec's wire-format description (u8 = 1 byte; string = u32
little-endian length prefix + raw UTF-8 bytes; fixed array `[N]` = N raw
bytes; option = 1-byte tag then payload if present; decode consumes the
buffer left to right and ignores surplus trailing bytes).  The schema
entries (`SCHEMA`) and all record shapes come from the source file.
-/

namespace Oyster

/-- A byte buffer: each entry models one byte (value < 256 in the real
program; the model does not depend on the range). -/
abbrev Bytes := List Nat

/-! ## Length constants (source lines 20-29) -/

/-- Source: `export const MAX_NAME_LENGTH = 32`. -/
def MAX_NAME_LENGTH : Nat := 32

/-- Source: `export const MAX_SYMBOL_LENGTH = 10`. -/
def MAX_SYMBOL_LENGTH : Nat := 10

/-- Source: `export const MAX_URI_LENGTH = 200`. -/
def MAX_URI_LENGTH : Nat := 200

/-- Source: `export const MAX_METADATA_LEN = 32 + MAX_NAME_LENGTH +
MAX_SYMBOL_LENGTH + MAX_URI_LENGTH + 200`. -/
def MAX_METADATA_LEN : Nat :=
  32 + MAX_NAME_LENGTH + MAX_SYMBOL_LENGTH + MAX_URI_LENGTH + 200

/-- Source: `export const MAX_OWNER_LEN = 32 + 32`. -/
def MAX_OWNER_LEN : Nat := 32 + 32

/-! ## Binary writer (modelled from the spec wire format) -/

/-- Modelled from the spec: little-endian 4-byte encoding of a u32
length prefix. -/
def u32le (n : Nat) : Bytes :=
  [n % 256, n / 256 % 256, n / 65536 % 256, n / 16777216 % 256]

/-- Modelled from the spec: a borsh `string` is a little-endian u32
length prefix followed by the raw UTF-8 bytes. -/
def writeStr (s : Bytes) : Bytes := u32le s.length ++ s

/-! ## Binary reader (modelled from the spec wire format) -/

/-- A reader consumes a byte buffer from the left, returning the parsed
value and the remaining bytes, or `none` on `MalformedInput`. -/
def Rd (α : Type) : Type := Bytes → Option (α × Bytes)

/-- Reader returning a fixed value, consuming nothing. -/
def Rd.pure (a : α) : Rd α := fun b => some (a, b)

/-- Sequential composition of readers: run `p`, then run `f` on the
value and the remaining bytes; a failure of either is a failure. -/
def Rd.bind (p : Rd α) (f : α → Rd β) : Rd β := fun b =>
  Option.bind (p b) fun ar => f ar.1 ar.2

/-- Modelled from the spec: read one `u8` byte; fails when the buffer is
exhausted. -/
def readU8 : Rd Nat := fun b =>
  match b with
  | [] => none
  | x :: r => some (x, r)

/-- Modelled from the spec: read a fixed-size array of `n` raw bytes;
fails when fewer than `n` bytes remain. -/
def readFixed (n : Nat) : Rd Bytes := fun b =>
  if n ≤ b.length then some (b.take n, b.drop n) else none

/-- Modelled from the spec: read a little-endian u32; fails when fewer
than 4 bytes remain. -/
def readU32 : Rd Nat := fun b =>
  match b with
  | b0 :: b1 :: b2 :: b3 :: r =>
      some (b0 + b1 * 256 + b2 * 65536 + b3 * 16777216, r)
  | _ => none

/-- Modelled from the spec: read a borsh `string` (u32 length prefix
followed by that many raw bytes). -/
def readStr : Rd Bytes := Rd.bind readU32 readFixed

/-- Modelled from the spec: read an `option<u8>` (one tag byte; a
non-zero tag is followed by the payload byte). -/
def readOptU8 : Rd (Option Nat) :=
  Rd.bind readU8 fun tag =>
    if tag = 0 then Rd.pure none
    else Rd.bind readU8 fun v => Rd.pure (some v)

/-! ## Record types (source lines 195-252) -/

/-- Source class `CreateMetadataArgs` (lines 195-207): fields in the
`SCHEMA` order `instruction` (u8), `allow_duplicates` (u8, the boolean
serialized as a byte), `name`, `symbol`, `uri` (strings as UTF-8
bytes). -/
structure CreateMetadataArgs where
  instruction : Nat
  allow_duplicates : Nat
  name : Bytes
  symbol : Bytes
  uri : Bytes
deriving DecidableEq, Repr

/-- Source constructor of `CreateMetadataArgs`: sets `instruction = 0`
and `allow_duplicates = false` (serialized as byte 0). -/
def CreateMetadataArgs.make (name symbol uri : Bytes) : CreateMetadataArgs :=
  { instruction := 0, allow_duplicates := 0, name, symbol, uri }

/-- Source class `UpdateMetadataArgs` (lines 208-218): fields
`instruction` (u8), `uri` (string), `non_unique_specific_update_authority`
(u8). -/
structure UpdateMetadataArgs where
  instruction : Nat
  uri : Bytes
  non_unique_specific_update_authority : Nat
deriving DecidableEq, Repr

/-- Source constructor of `UpdateMetadataArgs`: sets `instruction = 1`
and `non_unique_specific_update_authority = 0`. -/
def UpdateMetadataArgs.make (uri : Bytes) : UpdateMetadataArgs :=
  { instruction := 1, uri, non_unique_specific_update_authority := 0 }

/-- Source class `Metadata` (lines 220-242).  The constructor stores
`updateAuthority` (optional 32-byte key buffer), `mint` (32-byte
buffer), `name`, `symbol`, `uri`; the wire field `allow_duplicates`
that `SCHEMA` declares for this type is read during decode but
discarded by the constructor, and no `Metadata` instance ever carries
it (so serializing an instance always writes an absent option).  The
untyped `extended` field is never touched by the codec and is
omitted. -/
structure Metadata where
  updateAuthority : Option Bytes
  mint : Bytes
  name : Bytes
  symbol : Bytes
  uri : Bytes
deriving DecidableEq, Repr

/-- Source class `NameSymbolTuple` (lines 244-252): two 32-byte key
buffers. -/
structure NameSymbolTuple where
  updateAuthority : Bytes
  metadata : Bytes
deriving DecidableEq, Repr

/-! ## Serialization per the `SCHEMA` entries (source lines 254-302) -/

/-- Serialization of `CreateMetadataArgs` following its `SCHEMA` entry:
`instruction` u8, `allow_duplicates` u8, then the three strings.
Byte-level layout modelled from the spec. -/
def serializeCreateMetadataArgs (v : CreateMetadataArgs) : Bytes :=
  [v.instruction, v.allow_duplicates] ++
    writeStr v.name ++ writeStr v.symbol ++ writeStr v.uri

/-- Serialization of `UpdateMetadataArgs` following its `SCHEMA` entry:
`instruction` u8, `uri` string, `non_unique_specific_update_authority`
u8.  Byte-level layout modelled from the spec. -/
def serializeUpdateMetadataArgs (v : UpdateMetadataArgs) : Bytes :=
  [v.instruction] ++ writeStr v.uri ++ [v.non_unique_specific_update_authority]

/-- Serialization of a `Metadata` instance following its `SCHEMA` entry
`[allow_duplicates : option u8, mint : [32], name, symbol, uri]`.
A `Metadata` instance never carries an `allow_duplicates` property
(the source constructor discards it), so the option tag written is
always 0; `updateAuthority` is not part of the schema and is not
written.  The fixed array `[32]` requires exactly 32 bytes (per the
spec, fixed-array encode fails on a length mismatch).  Byte-level
layout modelled from the spec. -/
def serializeMetadata (m : Metadata) : Option Bytes :=
  if m.mint.length = 32 then
    some ([0] ++ m.mint ++ writeStr m.name ++ writeStr m.symbol ++ writeStr m.uri)
  else
    none

/-- Decoding of `Metadata` per its `SCHEMA` entry: read
`allow_duplicates` (option u8, discarded by the constructor), `mint`
(32 raw bytes), `name`, `symbol`, `uri` (strings); the constructor is
then called without an `updateAuthority` argument, so that field is
absent.  Byte-level behaviour modelled from the spec. -/
def readMetadata : Rd Metadata :=
  Rd.bind readOptU8 fun _allowDuplicates =>
  Rd.bind (readFixed 32) fun mint =>
  Rd.bind readStr fun name =>
  Rd.bind readStr fun symbol =>
  Rd.bind readStr fun uri =>
  Rd.pure { updateAuthority := none, mint, name, symbol, uri }

/-- Source `decodeMetadata` (lines 304-306): deserialize a buffer under
the `Metadata` schema entry.  Surplus trailing bytes are ignored (the
decoder stops after the declared fields); `none` models the
`MalformedInput` error. -/
def decodeMetadata (buffer : Bytes) : Option Metadata :=
  match readMetadata buffer with
  | some (m, _) => some m
  | none => none

/-! ## Keys, instructions and builder state -/

/-- An account public key, modelled as an opaque identifier. -/
abbrev Pubkey := Nat

/-- Model constant for the external `SystemProgram.programId`. -/
def systemProgramId : Pubkey := 101

/-- Model constant for the external `SYSVAR_RENT_PUBKEY`. -/
def SYSVAR_RENT_PUBKEY : Pubkey := 102

/-- Model constant for the external `TOKEN_PROGRAM_ID`. -/
def TOKEN_PROGRAM_ID : Pubkey := 103

/-- Model constant for the external `WRAPPED_SOL_MINT` (the
wrapped-native mint). -/
def WRAPPED_SOL_MINT : Pubkey := 104

/-- Model constant for the external `AccountLayout.span` (byte size of
an SPL token-account record). -/
def ACCOUNT_LAYOUT_SPAN : Nat := 165

/-- One entry of an instruction's key list: `{pubkey, isSigner,
isWritable}` as in the source key literals. -/
structure AccountMeta where
  pubkey : Pubkey
  isSigner : Bool
  isWritable : Bool
deriving DecidableEq, Repr

/-- The `TransactionInstruction` descriptor built by the source:
ordered key list, target program id, payload bytes. -/
structure TransactionInstruction where
  keys : List AccountMeta
  programId : Pubkey
  data : Bytes
deriving DecidableEq, Repr

/-- Instructions appended by this module.  The external constructors
`SystemProgram.createAccount`, `Token.createInitAccountInstruction` and
`Token.createCloseAccountInstruction` are modelled as opaque descriptors
carrying their arguments; instructions assembled directly by this module
are `raw` `TransactionInstruction`s. -/
inductive Instr where
  | createAccount (fromPubkey newAccountPubkey : Pubkey)
      (lamports space programId : Nat)
  | initTokenAccount (mint account owner : Pubkey)
  | closeAccount (account dest authority : Pubkey)
  | raw (ti : TransactionInstruction)
deriving DecidableEq, Repr

/-- The caller-supplied mutable lists threaded through the builders,
passed and returned explicitly. -/
structure BuildState where
  instructions : List Instr
  cleanupInstructions : List Instr
  signers : List Pubkey
deriving DecidableEq, Repr

/-- A seed for program-address derivation: either raw bytes
(`Buffer.from(...)`) or a key's 32-byte buffer (`key.toBuffer()`). -/
inductive Seed where
  | bytes : Bytes → Seed
  | key : Pubkey → Seed
deriving DecidableEq, Repr

/-- UTF-8 bytes of the literal seed string `"metadata"`. -/
def metadataSeed : Bytes := [109, 101, 116, 97, 100, 97, 116, 97]

/-- Structure of a token account as used by this module: its address
and the parsed info fields that `findOrCreateAccountByMint` and
`ensureSplAccount` consult. -/
structure TokenAccountInfo where
  mint : Pubkey
  owner : Pubkey
  isNative : Bool
deriving DecidableEq, Repr

/-- A cached token account: address plus parsed info. -/
structure TokenAccount where
  pubkey : Pubkey
  info : TokenAccountInfo
deriving DecidableEq, Repr

/-! ## Instruction builders (source lines 31-140, 336-563) -/

/-- Source `createUninitializedAccount` (lines 120-140): generate a
fresh account (modelled by the `newAccount` argument), push a
system `createAccount` instruction sized for a token account, push the
fresh account onto the signer list, return its key. -/
def createUninitializedAccount (newAccount payer : Pubkey) (amount : Nat)
    (st : BuildState) : Pubkey × BuildState :=
  ( newAccount,
    { st with
        instructions := st.instructions ++
          [Instr.createAccount payer newAccount amount ACCOUNT_LAYOUT_SPAN
            TOKEN_PROGRAM_ID],
        signers := st.signers ++ [newAccount] } )

/-- Source `ensureSplAccount` (lines 31-70): a non-native account is
returned unchanged; a native account is replaced by a fresh
wrapped-SOL account (create + init instructions) whose close
instruction is scheduled on the cleanup list. -/
def ensureSplAccount (newAccount : Pubkey) (toCheck : TokenAccount)
    (payer : Pubkey) (amount : Nat) (st : BuildState) : Pubkey × BuildState :=
  if toCheck.info.isNative = false then
    (toCheck.pubkey, st)
  else
    let res := createUninitializedAccount newAccount payer amount st
    let account := res.1
    let st1 := res.2
    let st2 := { st1 with
      instructions := st1.instructions ++
        [Instr.initTokenAccount WRAPPED_SOL_MINT account payer] }
    let st3 := { st2 with
      cleanupInstructions := st2.cleanupInstructions ++
        [Instr.closeAccount account payer payer] }
    (account, st3)

/-- Source `createTokenAccount` (lines 489-509): allocate an
uninitialized account, then push an init-account instruction binding
mint and owner. -/
def createTokenAccount (newAccount payer : Pubkey) (accountRentExempt : Nat)
    (mint owner : Pubkey) (st : BuildState) : Pubkey × BuildState :=
  let res := createUninitializedAccount newAccount payer accountRentExempt st
  let account := res.1
  let st1 := res.2
  ( account,
    { st1 with
        instructions := st1.instructions ++
          [Instr.initTokenAccount mint account owner] } )

/-- The cache predicate of `findOrCreateAccountByMint` (lines 526-532):
the cached entry is defined, its mint and owner match, and its address
is not in the excluded set (an absent set excludes nothing).  Key
comparisons are `toBase58()` string equality in the source, which is
key equality in the model. -/
def accountMatches (mint owner : Pubkey) (excluded : Option (List Pubkey))
    (entry : Option TokenAccount) : Bool :=
  match entry with
  | none => false
  | some acc =>
    decide (acc.info.mint = mint) && decide (acc.info.owner = owner) &&
      (match excluded with
       | none => true
       | some ex => ! ex.contains acc.pubkey)

/-- Source `findOrCreateAccountByMint` (lines 512-563): look up the
first matching cached account; reuse it unless the mint is the
wrapped-SOL mint, in which case (or when nothing matches) create a
token account, scheduling a close instruction when the mint is
wrapped SOL.  The cache enumeration
`cache.byParser(TokenAccountParser).map(id => cache.get(id))` is
modelled by the `cacheAccounts` list of possibly-undefined entries. -/
def findOrCreateAccountByMint (newAccount payer owner : Pubkey)
    (accountRentExempt : Nat) (mint : Pubkey)
    (cacheAccounts : List (Option TokenAccount))
    (excluded : Option (List Pubkey)) (st : BuildState) :
    Pubkey × BuildState :=
  let account := cacheAccounts.find? (accountMatches mint owner excluded)
  let isWrappedSol : Bool := decide (mint = WRAPPED_SOL_MINT)
  match account, isWrappedSol with
  | some (some acc), false => (acc.pubkey, st)
  | _, _ =>
    let res := createTokenAccount newAccount payer accountRentExempt mint owner st
    let toAccount := res.1
    let st1 := res.2
    if isWrappedSol then
      ( toAccount,
        { st1 with
            cleanupInstructions := st1.cleanupInstructions ++
              [Instr.closeAccount toAccount payer payer] } )
    else
      (toAccount, st1)

/-- Source `updateMetadata` (lines 336-397): derive the metadata and
metadata-owner program addresses, serialize an `UpdateMetadataArgs`
record, and append one 3-key instruction.  `derive` models the external
deterministic `PublicKey.findProgramAddress`. -/
def updateMetadata (derive : List Seed → Pubkey) (metadataProgramId : Pubkey)
    (symbol name uri : Bytes) (mintKey updateAuthority : Pubkey)
    (st : BuildState) : BuildState :=
  let metadataAccount := derive
    [Seed.bytes metadataSeed, Seed.key metadataProgramId, Seed.key mintKey]
  let metadataOwnerAccount := derive
    [Seed.bytes metadataSeed, Seed.key metadataProgramId,
      Seed.bytes name, Seed.bytes symbol]
  let data := serializeUpdateMetadataArgs (UpdateMetadataArgs.make uri)
  let keys : List AccountMeta :=
    [ { pubkey := metadataAccount, isSigner := false, isWritable := true },
      { pubkey := updateAuthority, isSigner := true, isWritable := false },
      { pubkey := metadataOwnerAccount, isSigner := false, isWritable := false } ]
  { st with
      instructions := st.instructions ++
        [Instr.raw { keys, programId := metadataProgramId, data }] }

/-- Source `createMetadata` (lines 399-487): derive the metadata and
metadata-owner program addresses, serialize a `CreateMetadataArgs`
record, and append one 8-key instruction. -/
def createMetadata (derive : List Seed → Pubkey) (metadataProgramId : Pubkey)
    (symbol name uri : Bytes) (mintKey mintAuthorityKey : Pubkey)
    (payer updateAuthority : Pubkey) (st : BuildState) : BuildState :=
  let metadataAccount := derive
    [Seed.bytes metadataSeed, Seed.key metadataProgramId, Seed.key mintKey]
  let metadataOwnerAccount := derive
    [Seed.bytes metadataSeed, Seed.key metadataProgramId,
      Seed.bytes name, Seed.bytes symbol]
  let data := serializeCreateMetadataArgs (CreateMetadataArgs.make name symbol uri)
  let keys : List AccountMeta :=
    [ { pubkey := metadataOwnerAccount, isSigner := false, isWritable := true },
      { pubkey := metadataAccount, isSigner := false, isWritable := true },
      { pubkey := mintKey, isSigner := false, isWritable := false },
      { pubkey := mintAuthorityKey, isSigner := true, isWritable := false },
      { pubkey := payer, isSigner := true, isWritable := false },
      { pubkey := updateAuthority, isSigner := true, isWritable := false },
      { pubkey := systemProgramId, isSigner := false, isWritable := false },
      { pubkey := SYSVAR_RENT_PUBKEY, isSigner := false, isWritable := false } ]
  { st with
      instructions := st.instructions ++
        [Instr.raw { keys, programId := metadataProgramId, data }] }

/-- Counts the system `createAccount` (account-creation) instructions in
a list. -/
def countCreateAccount (l : List Instr) : Nat :=
  (l.filter fun i =>
    match i with
    | Instr.createAccount _ _ _ _ _ => true
    | _ => false).length

/-- Counts the `closeAccount` instructions in a list. -/
def countCloseAccount (l : List Instr) : Nat :=
  (l.filter fun i =>
    match i with
    | Instr.closeAccount _ _ _ => true
    | _ => false).length

/-! ## Sample inputs used by witnesses and counterexamples -/

/-- A concrete in-bounds `Metadata` record with absent
`updateAuthority`. -/
def sampleMetadata : Metadata :=
  { updateAuthority := none
    mint := List.replicate 32 5
    name := [65]
    symbol := [66]
    uri := [67] }

/-- The full valid encoding of `sampleMetadata`: absent-option tag, 32
mint bytes, three 1-byte strings with their u32 length prefixes. -/
def sampleEncoding : Bytes :=
  [0] ++ List.replicate 32 5 ++ [1, 0, 0, 0, 65] ++ [1, 0, 0, 0, 66] ++ [1, 0, 0, 0, 67]

/-- A concrete in-bounds `Metadata` record whose `updateAuthority` is
present. -/
def metadataWithAuthority : Metadata :=
  { updateAuthority := some (List.replicate 32 7)
    mint := List.replicate 32 0
    name := []
    symbol := []
    uri := [] }

/-- A concrete non-native token account. -/
def sampleTokenAccount : TokenAccount :=
  { pubkey := 7, info := { mint := 5, owner := 6, isNative := false } }

/-- A concrete cached token account for mint 5 and owner 6. -/
def cachedAccount : TokenAccount :=
  { pubkey := 44, info := { mint := 5, owner := 6, isNative := false } }

/-! ## Reader lemmas -/

/-- The buffer `b` is a strict initial segment of `full`: some non-empty
tail is missing. -/
def Truncated (b full : Bytes) : Prop := ∃ t, t ≠ [] ∧ b ++ t = full

theorem Truncated.length_lt {b full : Bytes} (h : Truncated b full) :
    b.length < full.length := by
  obtain ⟨t, ht, rfl⟩ := h
  have : 0 < t.length := List.length_pos.mpr ht
  simp only [List.length_append]
  omega

/-- Exactness of a reader: it consumes an initial segment of the buffer,
the value and consumption depend only on that segment, and it fails on
every strict initial segment of a segment it fully consumes.  These are
the properties of the spec's cursor-based decoder with mandatory
bounds checks. -/
structure Exact (p : Rd α) : Prop where
  consumes : ∀ b a r, p b = some (a, r) → ∃ c, b = c ++ r
  stable : ∀ c r s a, p (c ++ r) = some (a, r) → p (c ++ s) = some (a, s)
  short : ∀ c r a, p (c ++ r) = some (a, r) → ∀ b, Truncated b c → p b = none

theorem readU8_some_iff {b : Bytes} {a : Nat} {r : Bytes} :
    readU8 b = some (a, r) ↔ b = a :: r := by
  cases b with
  | nil => simp [readU8]
  | cons x t => simp [readU8, eq_comm, and_comm]

theorem readU8_nil : readU8 [] = none := rfl

theorem exact_readU8 : Exact readU8 := by
  constructor
  · intro b a r h
    exact ⟨[a], readU8_some_iff.mp h⟩
  · intro c r s a h
    have hc : c = [a] := by
      have h1 : c ++ r = a :: r := readU8_some_iff.mp h
      have h2 : c ++ r = [a] ++ r := h1
      exact List.append_cancel_right h2
    subst hc
    exact readU8_some_iff.mpr rfl
  · intro c r a h b hb
    have hc : c = [a] := by
      have h2 : c ++ r = [a] ++ r := readU8_some_iff.mp h
      exact List.append_cancel_right h2
    subst hc
    have : b.length < 1 := by simpa using hb.length_lt
    have hb0 : b = [] := List.eq_nil_of_length_eq_zero (by omega)
    subst hb0
    rfl

theorem readFixed_append {n : Nat} {c : Bytes} (h : c.length = n) (r : Bytes) :
    readFixed n (c ++ r) = some (c, r) := by
  subst h
  unfold readFixed
  rw [if_pos (by simp)]
  rw [List.take_left, List.drop_left]

theorem readFixed_none {n : Nat} {b : Bytes} (h : b.length < n) :
    readFixed n b = none := by
  unfold readFixed
  rw [if_neg (by omega)]

theorem readFixed_some_iff {n : Nat} {b a r : Bytes} :
    readFixed n b = some (a, r) ↔ a.length = n ∧ b = a ++ r := by
  constructor
  · intro h
    unfold readFixed at h
    split at h
    · rename_i hle
      injection h with h1
      injection h1 with ha hr
      subst ha
      subst hr
      refine ⟨List.length_take_of_le hle, ?_⟩
      exact (List.take_append_drop n b).symm
    · exact absurd h (by simp)
  · rintro ⟨ha, rfl⟩
    exact readFixed_append ha r

theorem exact_readFixed (n : Nat) : Exact (readFixed n) := by
  constructor
  · intro b a r h
    exact ⟨a, (readFixed_some_iff.mp h).2⟩
  · intro c r s a h
    obtain ⟨ha, hb⟩ := readFixed_some_iff.mp h
    have hc : c = a := List.append_cancel_right hb
    subst hc
    exact readFixed_append ha s
  · intro c r a h b hb
    obtain ⟨ha, hcr⟩ := readFixed_some_iff.mp h
    have hc : c = a := List.append_cancel_right hcr
    subst hc
    have : b.length < n := by
      have := hb.length_lt
      omega
    exact readFixed_none this

theorem readU32_cons (b0 b1 b2 b3 : Nat) (r : Bytes) :
    readU32 (b0 :: b1 :: b2 :: b3 :: r) =
      some (b0 + b1 * 256 + b2 * 65536 + b3 * 16777216, r) := rfl

theorem readU32_none {b : Bytes} (h : b.length < 4) : readU32 b = none := by
  match b with
  | [] => rfl
  | [_] => rfl
  | [_, _] => rfl
  | [_, _, _] => rfl
  | _ :: _ :: _ :: _ :: _ =>
    exfalso
    simp only [List.length_cons] at h
    omega

theorem readU32_some_len {b : Bytes} {a : Nat} {r : Bytes}
    (h : readU32 b = some (a, r)) : b.length = r.length + 4 := by
  match b with
  | [] => exact absurd h (by simp [readU32])
  | [_] => exact absurd h (by simp [readU32])
  | [_, _] => exact absurd h (by simp [readU32])
  | [_, _, _] => exact absurd h (by simp [readU32])
  | b0 :: b1 :: b2 :: b3 :: t =>
    rw [readU32_cons] at h
    injection h with h1
    injection h1 with ha hr
    subst hr
    simp

theorem readU32_some_iff {b : Bytes} {a : Nat} {r : Bytes} :
    readU32 b = some (a, r) ↔
      ∃ b0 b1 b2 b3, b = b0 :: b1 :: b2 :: b3 :: r ∧
        a = b0 + b1 * 256 + b2 * 65536 + b3 * 16777216 := by
  constructor
  · intro h
    match b with
    | [] => exact absurd h (by simp [readU32])
    | [_] => exact absurd h (by simp [readU32])
    | [_, _] => exact absurd h (by simp [readU32])
    | [_, _, _] => exact absurd h (by simp [readU32])
    | b0 :: b1 :: b2 :: b3 :: t =>
      rw [readU32_cons] at h
      injection h with h1
      injection h1 with ha hr
      subst hr
      exact ⟨b0, b1, b2, b3, rfl, ha.symm⟩
  · rintro ⟨b0, b1, b2, b3, rfl, rfl⟩
    exact readU32_cons b0 b1 b2 b3 r

theorem exact_readU32 : Exact readU32 := by
  constructor
  · intro b a r h
    obtain ⟨b0, b1, b2, b3, rfl, _⟩ := readU32_some_iff.mp h
    exact ⟨[b0, b1, b2, b3], rfl⟩
  · intro c r s a h
    obtain ⟨b0, b1, b2, b3, hb, ha⟩ := readU32_some_iff.mp h
    have hc : c = [b0, b1, b2, b3] := by
      have h2 : c ++ r = [b0, b1, b2, b3] ++ r := hb
      exact List.append_cancel_right h2
    subst hc
    subst ha
    exact readU32_cons b0 b1 b2 b3 s
  · intro c r a h b hb
    obtain ⟨b0, b1, b2, b3, hbb, _⟩ := readU32_some_iff.mp h
    have hc : c = [b0, b1, b2, b3] := by
      have h2 : c ++ r = [b0, b1, b2, b3] ++ r := hbb
      exact List.append_cancel_right h2
    subst hc
    have : b.length < 4 := by
      have := hb.length_lt
      simp at this
      omega
    exact readU32_none this

theorem Rd.bind_some {p : Rd α} {f : α → Rd β} {b : Bytes} {a : α} {r : Bytes}
    (h : p b = some (a, r)) : Rd.bind p f b = f a r := by
  simp [Rd.bind, h]

theorem Rd.bind_none {p : Rd α} {f : α → Rd β} {b : Bytes}
    (h : p b = none) : Rd.bind p f b = none := by
  simp [Rd.bind, h]

theorem Rd.bind_eq_some {p : Rd α} {f : α → Rd β} {b : Bytes} {v : β} {r : Bytes}
    (h : Rd.bind p f b = some (v, r)) :
    ∃ a m, p b = some (a, m) ∧ f a m = some (v, r) := by
  unfold Rd.bind at h
  cases hp : p b with
  | none => rw [hp] at h; simp at h
  | some am =>
    obtain ⟨a, m⟩ := am
    rw [hp] at h
    simp at h
    exact ⟨a, m, rfl, h⟩

theorem exact_pure (a : α) : Exact (Rd.pure a) := by
  constructor
  · intro b v r h
    simp [Rd.pure] at h
    exact ⟨[], by simp [h.2]⟩
  · intro c r s v h
    simp [Rd.pure] at h
    obtain ⟨hv, hcr⟩ := h
    have hc : c = [] := by
      have := congrArg List.length hcr
      simpa using this
    subst hc
    simp [Rd.pure, hv]
  · intro c r v h b hb
    exfalso
    simp [Rd.pure] at h
    have hc : c = [] := by
      have := congrArg List.length h.2
      simpa using this
    subst hc
    have := hb.length_lt
    simp at this

theorem exact_bind {p : Rd α} {f : α → Rd β} (hp : Exact p)
    (hf : ∀ a, Exact (f a)) : Exact (Rd.bind p f) := by
  constructor
  · intro b v r h
    obtain ⟨a, m, h1, h2⟩ := Rd.bind_eq_some h
    obtain ⟨c1, rfl⟩ := hp.consumes b a m h1
    obtain ⟨c2, rfl⟩ := (hf a).consumes _ v r h2
    exact ⟨c1 ++ c2, by rw [List.append_assoc]⟩
  · intro c r s v h
    obtain ⟨a, m, h1, h2⟩ := Rd.bind_eq_some h
    obtain ⟨d, hd⟩ := hp.consumes _ a m h1
    obtain ⟨e, rfl⟩ := (hf a).consumes m v r h2
    have hc : c = d ++ e := by
      rw [← List.append_assoc] at hd
      exact List.append_cancel_right hd
    subst hc
    have h1a : p (d ++ (e ++ r)) = some (a, e ++ r) := by
      rw [← List.append_assoc]
      exact h1
    have h1s : p (d ++ (e ++ s)) = some (a, e ++ s) := hp.stable d (e ++ r) (e ++ s) a h1a
    have h2s : f a (e ++ s) = some (v, s) := (hf a).stable e r s v h2
    calc Rd.bind p f ((d ++ e) ++ s)
        = Rd.bind p f (d ++ (e ++ s)) := by rw [List.append_assoc]
      _ = f a (e ++ s) := Rd.bind_some h1s
      _ = some (v, s) := h2s
  · intro c r v h b hb
    obtain ⟨a, m, h1, h2⟩ := Rd.bind_eq_some h
    obtain ⟨d, hd⟩ := hp.consumes _ a m h1
    obtain ⟨e, rfl⟩ := (hf a).consumes m v r h2
    have hc : c = d ++ e := by
      rw [← List.append_assoc] at hd
      exact List.append_cancel_right hd
    subst hc
    have h1a : p (d ++ (e ++ r)) = some (a, e ++ r) := by
      rw [← List.append_assoc]
      exact h1
    obtain ⟨t, ht, hbt⟩ := hb
    rcases List.append_eq_append_iff.mp hbt with ⟨u, hu1, hu2⟩ | ⟨u, hu1, hu2⟩
    · by_cases hu : u = []
      · subst hu
        rw [List.append_nil] at hu1
        have hena : e ≠ [] := by
          intro he0
          rw [he0] at hu2
          simp at hu2
          exact ht hu2
        have hpb : p (d ++ ([] : Bytes)) = some (a, []) :=
          hp.stable d (e ++ r) [] a h1a
        have hpb2 : p d = some (a, []) := by simpa using hpb
        have hfe : f a [] = none :=
          (hf a).short e r v h2 [] ⟨e, hena, by simp⟩
        rw [← hu1]
        rw [Rd.bind_some hpb2]
        exact hfe
      · have htr : Truncated b d := ⟨u, hu, hu1.symm⟩
        have hpb : p b = none := hp.short d (e ++ r) a h1a b htr
        exact Rd.bind_none hpb
    · have hpb : p (d ++ u) = some (a, u) := hp.stable d (e ++ r) u a h1a
      have htu : Truncated u e := ⟨t, ht, hu2.symm⟩
      have hfu : f a u = none := (hf a).short e r v h2 u htu
      rw [hu1]
      rw [Rd.bind_some hpb]
      exact hfu

theorem exact_readStr : Exact readStr :=
  exact_bind exact_readU32 fun n => exact_readFixed n

theorem exact_readOptU8 : Exact readOptU8 := by
  refine exact_bind exact_readU8 ?_
  intro tag
  by_cases h : tag = 0
  · rw [if_pos h]
    exact exact_pure none
  · rw [if_neg h]
    exact exact_bind exact_readU8 fun v => exact_pure (some v)

theorem exact_readMetadata : Exact readMetadata :=
  exact_bind exact_readOptU8 fun _ =>
    exact_bind (exact_readFixed 32) fun _ =>
      exact_bind exact_readStr fun _ =>
        exact_bind exact_readStr fun _ =>
          exact_bind exact_readStr fun _ =>
            exact_pure _

/-! ## Computation of the readers on valid encodings -/

theorem readOptU8_zero (r : Bytes) : readOptU8 (0 :: r) = some (none, r) := rfl

theorem readStr_append {s : Bytes} (h : s.length < 4294967296) (r : Bytes) :
    readStr (writeStr s ++ r) = some (s, r) := by
  have hv : s.length % 256 + s.length / 256 % 256 * 256 +
      s.length / 65536 % 256 * 65536 + s.length / 16777216 % 256 * 16777216 =
      s.length := by omega
  show Rd.bind readU32 readFixed (writeStr s ++ r) = some (s, r)
  have hb : writeStr s ++ r =
      s.length % 256 :: s.length / 256 % 256 :: s.length / 65536 % 256 ::
        s.length / 16777216 % 256 :: (s ++ r) := by
    simp [writeStr, u32le]
  rw [hb]
  rw [Rd.bind_some (readU32_cons _ _ _ _ _)]
  rw [hv]
  exact readFixed_append rfl r

theorem readMetadata_append {mint name symbol uri : Bytes} (r : Bytes)
    (hm : mint.length = 32) (hn : name.length < 4294967296)
    (hs : symbol.length < 4294967296) (hu : uri.length < 4294967296) :
    readMetadata
        (([0] ++ mint ++ writeStr name ++ writeStr symbol ++ writeStr uri) ++ r) =
      some ({ updateAuthority := none, mint, name, symbol, uri }, r) := by
  have hb : ([0] ++ mint ++ writeStr name ++ writeStr symbol ++ writeStr uri) ++ r =
      0 :: (mint ++ (writeStr name ++ (writeStr symbol ++ (writeStr uri ++ r)))) := by
    simp [List.append_assoc]
  rw [hb]
  simp only [readMetadata, readOptU8_zero, Rd.bind, Option.bind, readFixed_append hm,
    readStr_append hn, readStr_append hs, readStr_append hu, Rd.pure]

theorem readMetadata_full {R : Metadata} {enc : Bytes}
    (hn : R.name.length < 4294967296) (hs : R.symbol.length < 4294967296)
    (hu : R.uri.length < 4294967296) (he : serializeMetadata R = some enc) :
    readMetadata enc = some ({ R with updateAuthority := none }, []) := by
  unfold serializeMetadata at he
  split at he
  · rename_i hm
    injection he with he
    subst he
    have h := readMetadata_append [] hm hn hs hu
    simpa using h
  · exact absurd he (by simp)

theorem readMetadata_some_updateAuthority {b : Bytes} {m : Metadata} {r : Bytes}
    (h : readMetadata b = some (m, r)) : m.updateAuthority = none := by
  unfold readMetadata at h
  obtain ⟨a1, m1, h1, h⟩ := Rd.bind_eq_some h
  obtain ⟨a2, m2, h2, h⟩ := Rd.bind_eq_some h
  obtain ⟨a3, m3, h3, h⟩ := Rd.bind_eq_some h
  obtain ⟨a4, m4, h4, h⟩ := Rd.bind_eq_some h
  obtain ⟨a5, m5, h5, h⟩ := Rd.bind_eq_some h
  simp [Rd.pure] at h
  rw [← h.1]

theorem find?_of_filter_singleton {α : Type} (p : α → Bool) (l : List α) (x : α)
    (h : l.filter p = [x]) : l.find? p = some x := by
  induction l with
  | nil => simp at h
  | cons a t ih =>
    by_cases hpa : p a
    · rw [List.filter_cons_of_pos hpa] at h
      injection h with h1 h2
      subst h1
      rw [List.find?_cons_of_pos _ hpa]
    · rw [List.filter_cons_of_neg hpa] at h
      rw [List.find?_cons_of_neg _ hpa]
      exact ih h

/-! ## Claims -/

/-- C1 (counterexample): the round trip fails as stated for a valid
in-bounds `Metadata` record whose `updateAuthority` is present — the
schema serializes no update-authority bytes, and the decode constructor
always leaves the field absent, so `decode(encode(R))` loses it. -/
theorem metadata_roundtrip_counterexample :
    metadataWithAuthority.name.length ≤ MAX_NAME_LENGTH ∧
      metadataWithAuthority.symbol.length ≤ MAX_SYMBOL_LENGTH ∧
      metadataWithAuthority.uri.length ≤ MAX_URI_LENGTH ∧
      metadataWithAuthority.mint.length = 32 ∧
      (serializeMetadata metadataWithAuthority).bind decodeMetadata ≠
        some metadataWithAuthority := by
  decide

/-- C1 (amended): for every `Metadata` record with absent
`updateAuthority` and name/symbol/uri within the declared length
bounds, decoding the encoding under the `Metadata` schema entry yields
the record back. -/
theorem metadata_decode_serialize_roundtrip (R : Metadata)
    (ha : R.updateAuthority = none)
    (hn : R.name.length ≤ MAX_NAME_LENGTH)
    (hs : R.symbol.length ≤ MAX_SYMBOL_LENGTH)
    (hu : R.uri.length ≤ MAX_URI_LENGTH)
    (enc : Bytes) (he : serializeMetadata R = some enc) :
    decodeMetadata enc = some R := by
  unfold MAX_NAME_LENGTH at hn
  unfold MAX_SYMBOL_LENGTH at hs
  unfold MAX_URI_LENGTH at hu
  have hfull := readMetadata_full (R := R) (by omega) (by omega) (by omega) he
  have hR : ({ R with updateAuthority := none } : Metadata) = R := by
    cases R
    simp_all
  simp only [decodeMetadata, hfull, hR]

/-- C1 witness: the amended round trip at a concrete record. -/
theorem metadata_decode_serialize_roundtrip_witness :
    decodeMetadata sampleEncoding = some sampleMetadata :=
  metadata_decode_serialize_roundtrip sampleMetadata rfl (by decide) (by decide)
    (by decide) sampleEncoding (by decide)

/-- C2: encoding `CreateMetadataArgs{name:"Foo", symbol:"FOO",
uri:"http://x"}` under its schema entry produces exactly the claimed
byte sequence: opcode byte 0, allow-duplicates byte 0, then each string
as a little-endian u32 length prefix followed by its UTF-8 bytes. -/
theorem createMetadataArgs_example_bytes :
    serializeCreateMetadataArgs
        (CreateMetadataArgs.make [70, 111, 111] [70, 79, 79]
          [104, 116, 116, 112, 58, 47, 47, 120]) =
      [0, 0, 3, 0, 0, 0, 70, 111, 111, 3, 0, 0, 0, 70, 79, 79,
        8, 0, 0, 0, 104, 116, 116, 112, 58, 47, 47, 120] := by
  decide

/-- C3: decoding any strict initial segment of a full valid `Metadata`
encoding fails with `MalformedInput` (modelled by `none`). -/
theorem decodeMetadata_truncation_fails (R : Metadata)
    (hn : R.name.length ≤ MAX_NAME_LENGTH)
    (hs : R.symbol.length ≤ MAX_SYMBOL_LENGTH)
    (hu : R.uri.length ≤ MAX_URI_LENGTH)
    (enc : Bytes) (he : serializeMetadata R = some enc)
    (B : Bytes) (hB : Truncated B enc) :
    decodeMetadata B = none := by
  unfold MAX_NAME_LENGTH at hn
  unfold MAX_SYMBOL_LENGTH at hs
  unfold MAX_URI_LENGTH at hu
  have hfull := readMetadata_full (R := R) (by omega) (by omega) (by omega) he
  have henc : readMetadata (enc ++ []) = some ({ R with updateAuthority := none }, []) := by
    simpa using hfull
  have hnone : readMetadata B = none :=
    exact_readMetadata.short enc [] _ henc B hB
  simp only [decodeMetadata, hnone]

/-- C3 witness: a one-byte truncation of a concrete valid encoding
fails to decode. -/
theorem decodeMetadata_truncation_fails_witness :
    decodeMetadata [0] = none :=
  decodeMetadata_truncation_fails sampleMetadata (by decide) (by decide) (by decide)
    sampleEncoding (by decide) [0]
    ⟨List.replicate 32 5 ++ [1, 0, 0, 0, 65] ++ [1, 0, 0, 0, 66] ++ [1, 0, 0, 0, 67],
      by decide, by decide⟩

/-- C4: for all inputs, `createMetadata` appends exactly one instruction
whose key list has exactly the 8 entries in the fixed order
metadata-owner (writable), metadata (writable), mint, mint-authority
(signer), payer (signer), update-authority (signer), system program,
rent sysvar, and leaves the other lists unchanged. -/
theorem createMetadata_eight_keys (derive : List Seed → Pubkey)
    (metadataProgramId : Pubkey) (symbol name uri : Bytes)
    (mintKey mintAuthorityKey payer updateAuthority : Pubkey) (st : BuildState) :
    (createMetadata derive metadataProgramId symbol name uri mintKey
        mintAuthorityKey payer updateAuthority st).instructions =
      st.instructions ++
        [Instr.raw
          { keys :=
              [ { pubkey := derive [Seed.bytes metadataSeed,
                    Seed.key metadataProgramId, Seed.bytes name, Seed.bytes symbol],
                  isSigner := false, isWritable := true },
                { pubkey := derive [Seed.bytes metadataSeed,
                    Seed.key metadataProgramId, Seed.key mintKey],
                  isSigner := false, isWritable := true },
                { pubkey := mintKey, isSigner := false, isWritable := false },
                { pubkey := mintAuthorityKey, isSigner := true, isWritable := false },
                { pubkey := payer, isSigner := true, isWritable := false },
                { pubkey := updateAuthority, isSigner := true, isWritable := false },
                { pubkey := systemProgramId, isSigner := false, isWritable := false },
                { pubkey := SYSVAR_RENT_PUBKEY, isSigner := false, isWritable := false } ],
            programId := metadataProgramId,
            data := serializeCreateMetadataArgs
              (CreateMetadataArgs.make name symbol uri) }] ∧
    (createMetadata derive metadataProgramId symbol name uri mintKey
        mintAuthorityKey payer updateAuthority st).instructions.length =
      st.instructions.length + 1 ∧
    (createMetadata derive metadataProgramId symbol name uri mintKey
        mintAuthorityKey payer updateAuthority st).cleanupInstructions =
      st.cleanupInstructions ∧
    (createMetadata derive metadataProgramId symbol name uri mintKey
        mintAuthorityKey payer updateAuthority st).signers = st.signers := by
  refine ⟨rfl, by simp [createMetadata], rfl, rfl⟩

/-- C5: with the wrapped-SOL mint, `findOrCreateAccountByMint` always
creates a fresh account — appending exactly one account-creation
instruction (plus its init instruction) and exactly one close
instruction — even when a matching cached account exists. -/
theorem findOrCreateAccountByMint_wrappedSol (newAccount payer owner : Pubkey)
    (accountRentExempt : Nat) (cacheAccounts : List (Option TokenAccount))
    (excluded : Option (List Pubkey)) (st : BuildState) :
    findOrCreateAccountByMint newAccount payer owner accountRentExempt
        WRAPPED_SOL_MINT cacheAccounts excluded st =
      (newAccount,
        { instructions := st.instructions ++
            [Instr.createAccount payer newAccount accountRentExempt
              ACCOUNT_LAYOUT_SPAN TOKEN_PROGRAM_ID,
             Instr.initTokenAccount WRAPPED_SOL_MINT newAccount owner],
          cleanupInstructions := st.cleanupInstructions ++
            [Instr.closeAccount newAccount payer payer],
          signers := st.signers ++ [newAccount] }) ∧
    countCreateAccount (findOrCreateAccountByMint newAccount payer owner
        accountRentExempt WRAPPED_SOL_MINT cacheAccounts excluded st).2.instructions =
      countCreateAccount st.instructions + 1 ∧
    countCloseAccount (findOrCreateAccountByMint newAccount payer owner
        accountRentExempt WRAPPED_SOL_MINT cacheAccounts excluded st).2.cleanupInstructions =
      countCloseAccount st.cleanupInstructions + 1 := by
  have hmain : findOrCreateAccountByMint newAccount payer owner accountRentExempt
      WRAPPED_SOL_MINT cacheAccounts excluded st =
      (newAccount,
        { instructions := st.instructions ++
            [Instr.createAccount payer newAccount accountRentExempt
              ACCOUNT_LAYOUT_SPAN TOKEN_PROGRAM_ID,
             Instr.initTokenAccount WRAPPED_SOL_MINT newAccount owner],
          cleanupInstructions := st.cleanupInstructions ++
            [Instr.closeAccount newAccount payer payer],
          signers := st.signers ++ [newAccount] }) := by
    unfold findOrCreateAccountByMint
    rcases hfind : cacheAccounts.find? (accountMatches WRAPPED_SOL_MINT owner excluded) with
      _ | ⟨_ | acc⟩ <;>
      simp [hfind, createTokenAccount, createUninitializedAccount]
  refine ⟨hmain, ?_, ?_⟩
  · rw [hmain]
    simp [countCreateAccount, List.filter_append]
  · rw [hmain]
    simp [countCloseAccount, List.filter_append]

/-- C6: with a non-native mint and a cache containing exactly one
matching, non-excluded account, `findOrCreateAccountByMint` returns
that account's key and leaves the instruction, cleanup and signer lists
unchanged. -/
theorem findOrCreateAccountByMint_cached (newAccount payer owner : Pubkey)
    (accountRentExempt : Nat) (mint : Pubkey)
    (cacheAccounts : List (Option TokenAccount)) (excluded : Option (List Pubkey))
    (st : BuildState) (acc : TokenAccount)
    (hmint : mint ≠ WRAPPED_SOL_MINT)
    (hone : cacheAccounts.filter (accountMatches mint owner excluded) = [some acc]) :
    findOrCreateAccountByMint newAccount payer owner accountRentExempt mint
      cacheAccounts excluded st = (acc.pubkey, st) := by
  have hfind : cacheAccounts.find? (accountMatches mint owner excluded) = some (some acc) :=
    find?_of_filter_singleton _ _ _ hone
  unfold findOrCreateAccountByMint
  simp [hfind, hmint]

/-- C6 witness: a cache holding exactly one matching account is reused
without new instructions. -/
theorem findOrCreateAccountByMint_cached_witness :
    findOrCreateAccountByMint 9 1 6 0 5 [some cachedAccount] none
        { instructions := [], cleanupInstructions := [], signers := [] } =
      (44, { instructions := [], cleanupInstructions := [], signers := [] }) :=
  findOrCreateAccountByMint_cached 9 1 6 0 5 [some cachedAccount] none
    { instructions := [], cleanupInstructions := [], signers := [] } cachedAccount
    (by decide) (by decide)

/-- C7: for all inputs, `updateMetadata` appends exactly one instruction
with exactly the 3 keys metadata (writable), update-authority (signer),
metadata-owner, and the payload's first byte is the opcode 1. -/
theorem updateMetadata_three_keys (derive : List Seed → Pubkey)
    (metadataProgramId : Pubkey) (symbol name uri : Bytes)
    (mintKey updateAuthority : Pubkey) (st : BuildState) :
    (updateMetadata derive metadataProgramId symbol name uri mintKey
        updateAuthority st).instructions =
      st.instructions ++
        [Instr.raw
          { keys :=
              [ { pubkey := derive [Seed.bytes metadataSeed,
                    Seed.key metadataProgramId, Seed.key mintKey],
                  isSigner := false, isWritable := true },
                { pubkey := updateAuthority, isSigner := true, isWritable := false },
                { pubkey := derive [Seed.bytes metadataSeed,
                    Seed.key metadataProgramId, Seed.bytes name, Seed.bytes symbol],
                  isSigner := false, isWritable := false } ],
            programId := metadataProgramId,
            data := serializeUpdateMetadataArgs (UpdateMetadataArgs.make uri) }] ∧
    (updateMetadata derive metadataProgramId symbol name uri mintKey
        updateAuthority st).instructions.length = st.instructions.length + 1 ∧
    (serializeUpdateMetadataArgs (UpdateMetadataArgs.make uri)).head? = some 1 := by
  refine ⟨rfl, by simp [updateMetadata], rfl⟩

/-- C8: every successful `decodeMetadata` yields a record whose
`updateAuthority` field is absent — the decode byte layout contains no
update-authority field and the constructor never populates it. -/
theorem decodeMetadata_updateAuthority_none (b : Bytes) (m : Metadata)
    (h : decodeMetadata b = some m) : m.updateAuthority = none := by
  unfold decodeMetadata at h
  cases hr : readMetadata b with
  | none => rw [hr] at h; simp at h
  | some mr =>
    rw [hr] at h
    simp at h
    rw [← h]
    exact readMetadata_some_updateAuthority (m := mr.1) (r := mr.2) (by rw [hr])

/-- C8 witness: a concrete successful decode has no update
authority. -/
theorem decodeMetadata_updateAuthority_none_witness :
    sampleMetadata.updateAuthority = none :=
  decodeMetadata_updateAuthority_none sampleEncoding sampleMetadata (by decide)

/-- C9: the exported maximum metadata size bound is exactly 474,
computed as 32 + 32 + 10 + 200 + 200 from the three length
constants. -/
theorem max_metadata_len_eq :
    MAX_METADATA_LEN = 474 ∧ MAX_NAME_LENGTH = 32 ∧ MAX_SYMBOL_LENGTH = 10 ∧
      MAX_URI_LENGTH = 200 ∧
      MAX_METADATA_LEN =
        32 + MAX_NAME_LENGTH + MAX_SYMBOL_LENGTH + MAX_URI_LENGTH + 200 := by
  decide

/-- C10: `ensureSplAccount` returns a non-native account unchanged,
touching none of the lists; only for a native account does it create a
fresh wrapped-SOL account and schedule a close instruction on the
cleanup list. -/
theorem ensureSplAccount_spec (newAccount : Pubkey) (toCheck : TokenAccount)
    (payer : Pubkey) (amount : Nat) (st : BuildState) :
    (toCheck.info.isNative = false →
      ensureSplAccount newAccount toCheck payer amount st = (toCheck.pubkey, st)) ∧
    (toCheck.info.isNative = true →
      ensureSplAccount newAccount toCheck payer amount st =
        (newAccount,
          { instructions := st.instructions ++
              [Instr.createAccount payer newAccount amount ACCOUNT_LAYOUT_SPAN
                TOKEN_PROGRAM_ID,
               Instr.initTokenAccount WRAPPED_SOL_MINT newAccount payer],
            cleanupInstructions := st.cleanupInstructions ++
              [Instr.closeAccount newAccount payer payer],
            signers := st.signers ++ [newAccount] })) := by
  constructor
  · intro h
    simp [ensureSplAccount, h]
  · intro h
    simp [ensureSplAccount, h, createUninitializedAccount]

/-- C10 witness: a concrete non-native account passes through with the
state untouched. -/
theorem ensureSplAccount_spec_witness :
    ensureSplAccount 9 sampleTokenAccount 1 2
        { instructions := [], cleanupInstructions := [], signers := [] } =
      (sampleTokenAccount.pubkey,
        { instructions := [], cleanupInstructions := [], signers := [] }) :=
  (ensureSplAccount_spec 9 sampleTokenAccount 1 2
    { instructions := [], cleanupInstructions := [], signers := [] }).1 rfl

end Oyster
